import Mathlib

/-!
Verification of the lifecycle-detection and snapshot-selection engine of the
`poc-sonar-ti6` repository (three Python scripts: `pipeline-unificado-2022.py`,
`pipeline/pipeline-fase-1.py`, `pipeline/pipeline-pilar3.py`).

Modelling conventions (shallow embedding):
* Timestamps (`datetime.datetime` values in UTC) are modelled as `Int`
  seconds since the epoch.  `timedelta(days=1)` is `86400` seconds, and
  Python's `timedelta.days` field is floor division of the total seconds by
  `86400` (`Int.fdiv`).
* Python `list.sort()` / `sorted()` is a stable sort; it is modelled by
  `List.insertionSort`, which is the (extensionally unique) stable sort and
  is structurally recursive, hence computable by the kernel.
* GraphQL JSON nodes are modelled by structures whose possibly-missing or
  null fields are `Option`s; a `dict.get(k, default)` access becomes
  `Option.getD`, while a direct `d[k]` index on a possibly-missing key is
  modelled in the `Except Unit` monad (a `KeyError`).
* The network (`requests.post` answers, GraphQL window queries) is an
  oracle: a function from the attempt number (resp. the window size in
  days) to the response delivered by the remote end.
-/

/-- One day in seconds (`datetime.timedelta(days=1)`). -/
def secondsPerDay : Int := 86400

/-- Python's `(t2 - t1).days`: floor division of the difference in seconds
by `86400` (`timedelta.days` floors towards minus infinity, which is
`Int.fdiv`). -/
def deltaDays (t1 t2 : Int) : Int :=
  Int.fdiv (t2 - t1) secondsPerDay

/-- `SnapshotCommit` dataclass of `pipeline-pilar3.py` (`sha`,
`committed_at`, `message`). -/
structure SnapshotCommit where
  sha : String
  committed_at : Int
  message : String
deriving DecidableEq

/-- A node of the GraphQL commit-history answer used by
`pipeline-pilar3.py` (`oid`, `committedDate`, `messageHeadline`).  `oid`
and `committedDate` are `Option`s: `none` models an absent key or a falsy
(empty) value, which the code guards against with `dict.get`; a direct
index on `none` is a `KeyError`.  `messageHeadline` is always read with
`node.get("messageHeadline", "")`, so it is total here. -/
structure GNode where
  oid : Option String
  committedDate : Option Int
  messageHeadline : String
deriving DecidableEq

/-- Stable ascending sort of timestamps (`commit_dates.sort()`). -/
def sortAscInt (l : List Int) : List Int :=
  l.insertionSort (fun a b => a ≤ b)

/-- Stable ascending sort of commits by `committed_at`
(`sorted(collected.values(), key=lambda c: c.committed_at)`). -/
def sortByTimeAsc (l : List SnapshotCommit) : List SnapshotCommit :=
  l.insertionSort (fun a b => a.committed_at ≤ b.committed_at)

/-- Stable descending sort of commits by `committed_at`
(`parsed.sort(key=lambda c: c.committed_at, reverse=True)`). -/
def sortByTimeDesc (l : List SnapshotCommit) : List SnapshotCommit :=
  l.insertionSort (fun a b => b.committed_at ≤ a.committed_at)

/-!
### `detect_inactivity_periods`

Identical in `pipeline-unificado-2022.py` (lines 64-72) and
`pipeline/pipeline-fase-1.py` (lines 63-71):

```python
def detect_inactivity_periods(commit_dates, threshold_days=180):
    commit_dates.sort()
    periods = []
    for i in range(1, len(commit_dates)):
        delta = (commit_dates[i] - commit_dates[i - 1]).days
        if delta >= threshold_days:
            periods.append((commit_dates[i - 1], commit_dates[i]))
    return periods
```
-/

/-- The scan over consecutive elements of the (already sorted) date list:
for `i` in `1..len-1`, emit `(t[i-1], t[i])` when the gap in whole days
reaches the threshold. -/
def gapScan (thresholdDays : Int) : List Int → List (Int × Int)
  | a :: b :: rest =>
    (if thresholdDays ≤ deltaDays a b then [(a, b)] else [])
      ++ gapScan thresholdDays (b :: rest)
  | _ => []

/-- `detect_inactivity_periods(commit_dates, threshold_days)`. -/
def detect_inactivity_periods (commitDates : List Int) (thresholdDays : Int) :
    List (Int × Int) :=
  gapScan thresholdDays (sortAscInt commitDates)

/-- The consecutive pairs `(t[i-1], t[i])` of a list, as `zip` with the
tail.  Used to state the specification of `detect_inactivity_periods`. -/
def consecutivePairs (s : List Int) : List (Int × Int) :=
  s.zip s.tail

/-- Modelled from the spec: the intervals of `detect_inactivity_periods`
described extensionally — exactly the consecutive pairs of the sorted
sequence whose gap in whole days reaches the threshold, in order. -/
def specGaps (thresholdDays : Int) (s : List Int) : List (Int × Int) :=
  (consecutivePairs s).filter (fun p => decide (thresholdDays ≤ deltaDays p.1 p.2))

theorem gapScan_eq_filter (thresholdDays : Int) :
    ∀ s : List Int, gapScan thresholdDays s = specGaps thresholdDays s
  | [] => rfl
  | [_] => rfl
  | a :: b :: rest => by
    have ih := gapScan_eq_filter thresholdDays (b :: rest)
    simp only [gapScan, specGaps, consecutivePairs, List.tail_cons, List.zip_cons_cons,
      List.filter_cons] at ih ⊢
    by_cases h : thresholdDays ≤ deltaDays a b
    · simp [h, ih]
    · simp [h, ih]

theorem sortAscInt_sorted (l : List Int) :
    (sortAscInt l).Sorted (fun a b : Int => a ≤ b) :=
  List.sorted_insertionSort (fun a b : Int => a ≤ b) l

theorem sortAscInt_perm (l : List Int) : (sortAscInt l).Perm l :=
  List.perm_insertionSort (fun a b : Int => a ≤ b) l

theorem consecutivePairs_le_of_sorted :
    ∀ {s : List Int}, s.Sorted (fun a b : Int => a ≤ b) →
      ∀ p ∈ consecutivePairs s, p.1 ≤ p.2
  | [], _, p, hp => by simp [consecutivePairs] at hp
  | [_], _, p, hp => by simp [consecutivePairs] at hp
  | a :: b :: t, hs, p, hp => by
    simp only [consecutivePairs, List.tail_cons, List.zip_cons_cons, List.mem_cons] at hp
    rcases hp with h | h
    · subst h
      exact (List.sorted_cons.mp hs).1 b (by simp)
    · exact consecutivePairs_le_of_sorted (List.sorted_cons.mp hs).2 p h

theorem lt_of_one_le_deltaDays {a b : Int} (hab : a ≤ b) (h1 : 1 ≤ deltaDays a b) :
    a < b := by
  unfold deltaDays secondsPerDay at h1
  rw [Int.fdiv_eq_ediv _ (by decide)] at h1
  by_contra hlt
  have hba : b - a < 86400 := by omega
  rw [Int.ediv_eq_zero_of_lt (by omega) hba] at h1
  omega

theorem deltaDays_mul (t θ : Int) : deltaDays t (t + θ * secondsPerDay) = θ := by
  unfold deltaDays
  have h : t + θ * secondsPerDay - t = θ * secondsPerDay := by ring
  rw [h, Int.mul_fdiv_cancel θ (by unfold secondsPerDay; decide)]

theorem detect_eq_specGaps (dates : List Int) (θ : Int) :
    detect_inactivity_periods dates θ = specGaps θ (sortAscInt dates) :=
  gapScan_eq_filter θ (sortAscInt dates)

theorem sortAscInt_pair {a b : Int} (h : a ≤ b) : sortAscInt [a, b] = [a, b] := by
  simp [sortAscInt, List.insertionSort, List.orderedInsert, h]

/-- **C4.** `detect_inactivity_periods` sorts the timestamps ascending and
returns exactly one interval `(t[i-1], t[i])` for each consecutive pair of
the sorted sequence whose gap in whole days is at least `threshold_days`,
in chronological order; a single gap of exactly `threshold_days` yields
exactly the interval flanking the gap, a gap of `threshold_days - 1` yields
none, and a sequence with no gap of at least `threshold_days` yields the
empty result. -/
theorem detect_inactivity_periods_spec (dates : List Int) (θ t : Int) (hθ : 1 ≤ θ) :
    detect_inactivity_periods dates θ = specGaps θ (sortAscInt dates)
    ∧ detect_inactivity_periods [t, t + θ * secondsPerDay] θ =
        [(t, t + θ * secondsPerDay)]
    ∧ detect_inactivity_periods [t, t + (θ - 1) * secondsPerDay] θ = []
    ∧ ((∀ p ∈ consecutivePairs (sortAscInt dates), deltaDays p.1 p.2 < θ) →
        detect_inactivity_periods dates θ = []) := by
  have hspd : (0:Int) < secondsPerDay := by unfold secondsPerDay; decide
  refine ⟨detect_eq_specGaps dates θ, ?_, ?_, ?_⟩
  · have hle : t ≤ t + θ * secondsPerDay := by nlinarith
    rw [detect_inactivity_periods, sortAscInt_pair hle]
    simp [gapScan, deltaDays_mul, le_refl]
  · have hle : t ≤ t + (θ - 1) * secondsPerDay := by nlinarith
    rw [detect_inactivity_periods, sortAscInt_pair hle]
    have hd : deltaDays t (t + (θ - 1) * secondsPerDay) = θ - 1 := deltaDays_mul t (θ - 1)
    simp [gapScan, hd]
  · intro hall
    rw [detect_eq_specGaps, specGaps, List.filter_eq_nil_iff]
    intro p hp
    have := hall p hp
    simp only [decide_eq_true_eq]
    omega

/-- Witness for `detect_inactivity_periods_spec`: a gap of exactly 180
days between two commits yields exactly that interval, while a gap of 179
days yields none. -/
theorem detect_inactivity_periods_spec_witness :
    detect_inactivity_periods [0, 0 + 180 * secondsPerDay] 180 =
        [(0, 0 + 180 * secondsPerDay)]
    ∧ detect_inactivity_periods [0, 0 + (180 - 1) * secondsPerDay] 180 = [] :=
  ⟨(detect_inactivity_periods_spec [] 180 0 (by decide)).2.1,
   (detect_inactivity_periods_spec [] 180 0 (by decide)).2.2.1⟩

/-- **C6.** Every interval returned by `detect_inactivity_periods` (for a
threshold of at least one day, such as the default 180) satisfies
`start < end`, and the gap `end - start` measured in whole days is at
least the threshold. -/
theorem detect_inactivity_periods_invariant (dates : List Int) (θ : Int) (hθ : 1 ≤ θ) :
    ∀ p ∈ detect_inactivity_periods dates θ, p.1 < p.2 ∧ θ ≤ deltaDays p.1 p.2 := by
  intro p hp
  rw [detect_eq_specGaps, specGaps, List.mem_filter] at hp
  obtain ⟨hmem, hgap⟩ := hp
  simp only [decide_eq_true_eq] at hgap
  have hle : p.1 ≤ p.2 :=
    consecutivePairs_le_of_sorted (sortAscInt_sorted dates) p hmem
  exact ⟨lt_of_one_le_deltaDays hle (by omega), hgap⟩

/-- Witness for `detect_inactivity_periods_invariant`: the interval found
for two commits 200 days apart. -/
theorem detect_inactivity_periods_invariant_witness :
    (0:Int) < 17280000 ∧ (180:Int) ≤ deltaDays 0 17280000 :=
  detect_inactivity_periods_invariant [17280000, 0] 180 (by decide)
    (0, 17280000) (by decide)

/-!
### `analyze_repo`

Two distinct implementations exist: `pipeline/pipeline-fase-1.py` lines
74-107 and `pipeline-unificado-2022.py` lines 74-114.  Both read the
commit nodes through the defaulted chain
`repo.get("defaultBranchRef", {}).get("target", {}).get("history", {}).get("nodes", [])`,
modelled below with `Option` levels and a `[]` default.
-/

/-- A commit node of the search queries of `pipeline-fase-1.py` and
`pipeline-unificado-2022.py`: only `committedDate` is read; `none` models
a missing key or a falsy (empty) value. -/
structure DateNode where
  committedDate : Option Int
deriving DecidableEq

/-- `history` object: `{"nodes": [...]}`. -/
structure CommitHistory where
  nodes : List DateNode
deriving DecidableEq

/-- `target` object: `{"history": ...}`. -/
structure BranchTarget where
  history : Option CommitHistory
deriving DecidableEq

/-- `defaultBranchRef` object: `{"target": ...}`. -/
structure BranchRef where
  target : Option BranchTarget
deriving DecidableEq

/-- The chain
`repo.get("defaultBranchRef", {}).get("target", {}).get("history", {}).get("nodes", [])`. -/
def historyNodes (branchRef : Option BranchRef) : List DateNode :=
  match branchRef with
  | none => []
  | some br =>
    match br.target with
    | none => []
    | some tg =>
      match tg.history with
      | none => []
      | some h => h.nodes

/-- Repository metadata consumed by `analyze_repo` of `pipeline-fase-1.py`. -/
structure RepoFase1 where
  nameWithOwner : String
  stargazerCount : Int
  url : String
  primaryLanguage : Option String
  defaultBranchRef : Option BranchRef
deriving DecidableEq

/-- The record built by `analyze_repo` of `pipeline-fase-1.py` (keys
`Nome`, `Linguagem`, `Stargazers`, `URL`, `Data de morte`,
`Data de ressurreição`, `Morreu após reviver`, `Commits analisados`).
Dates are kept as timestamps; the script formats them `%Y-%m-%d` only
when exporting. -/
structure RecordFase1 where
  nome : String
  linguagem : String
  stargazers : Int
  url : String
  dataMorte : Int
  dataRessurreicao : Option Int
  morreuAposReviver : Int
  commitsAnalisados : Nat
deriving DecidableEq

/-- The commit-date list of `analyze_repo` in `pipeline-fase-1.py`:
nodes with a truthy `committedDate` (`if c.get("committedDate")`), parsed
and sorted in place. -/
def fase1Dates (repo : RepoFase1) : List Int :=
  sortAscInt ((historyNodes repo.defaultBranchRef).filterMap (fun c => c.committedDate))

/-- `analyze_repo` of `pipeline/pipeline-fase-1.py` (lines 74-107).  Note
that it returns `None` both when the commit list is empty and when no
inactivity period is detected. -/
def analyzeRepoFase1 (repo : RepoFase1) : Option RecordFase1 :=
  let commits := historyNodes repo.defaultBranchRef
  if commits.isEmpty then none
  else
    let commitDates := fase1Dates repo
    match detect_inactivity_periods commitDates 180 with
    | [] => none
    | (morte, revive) :: rest =>
      some ⟨repo.nameWithOwner, repo.primaryLanguage.getD "N/A", repo.stargazerCount,
            repo.url, morte,
            if commitDates.any (fun c => decide (revive < c)) then some revive else none,
            if rest.isEmpty then 0 else 1,
            commitDates.length⟩

/-- Repository metadata consumed by `analyze_repo` of
`pipeline-unificado-2022.py` (no `primaryLanguage` in its query). -/
structure RepoUnificado where
  nameWithOwner : String
  stargazerCount : Int
  url : String
  defaultBranchRef : Option BranchRef
deriving DecidableEq

/-- The record built by `analyze_repo` of `pipeline-unificado-2022.py`
(keys `Nome`, `Stargazers`, `URL`, `Data de morte`,
`Data de ressurreição`, `Morreu após reviver`). -/
structure RecordUnificado where
  nome : String
  stargazers : Int
  url : String
  dataMorte : Option Int
  dataRessurreicao : Option Int
  morreuAposReviver : Int
deriving DecidableEq

/-- The direct index `c["committedDate"]` of `pipeline-unificado-2022.py`
line 85: a `KeyError` (modelled as `Except.error ()`) when the key is
missing. -/
def extractDate (c : DateNode) : Except Unit Int :=
  match c.committedDate with
  | none => Except.error ()
  | some t => Except.ok t

/-- `analyze_repo` of `pipeline-unificado-2022.py` (lines 74-114).  Note
that when inactivity periods exist it fills `Data de ressurreição`
unconditionally with the end of the first period, without checking for a
commit after it. -/
def analyzeRepoUnificado (repo : RepoUnificado) : Except Unit (Option RecordUnificado) :=
  let commits := historyNodes repo.defaultBranchRef
  if commits.isEmpty then Except.ok none
  else
    match commits.mapM extractDate with
    | Except.error e => Except.error e
    | Except.ok commitDates =>
      match detect_inactivity_periods (sortAscInt commitDates) 180 with
      | [] =>
        Except.ok (some ⟨repo.nameWithOwner, repo.stargazerCount, repo.url,
          none, none, 0⟩)
      | (morte, revive) :: rest =>
        Except.ok (some ⟨repo.nameWithOwner, repo.stargazerCount, repo.url,
          some morte, some revive, if rest.isEmpty then 0 else 1⟩)

/-- A resurrected-looking repository for `pipeline-unificado-2022.py`: two
commits 200 days apart and nothing after the gap. -/
def c3Repo : RepoUnificado :=
  ⟨"road/kill", 1, "https://example.invalid/rk",
   some ⟨some ⟨some ⟨[⟨some 0⟩, ⟨some 17280000⟩]⟩⟩⟩⟩

/-- **C3 counterexample.** `analyze_repo` of `pipeline-unificado-2022.py`
fills `Data de ressurreição` with the end of the first inactivity interval
even though no commit timestamp strictly exceeds that boundary (all dates
are at most `17280000`), contradicting the claim that the revival date is
set only when a later commit exists. -/
theorem analyzeRepoUnificado_sets_revival_unconditionally :
    analyzeRepoUnificado c3Repo =
      Except.ok (some ⟨"road/kill", 1, "https://example.invalid/rk",
        some 0, some 17280000, 0⟩)
    ∧ ((historyNodes c3Repo.defaultBranchRef).filterMap (fun c => c.committedDate)).all
        (fun c => decide (c ≤ 17280000)) = true :=
  ⟨rfl, rfl⟩

/-- **C3 (amended).** When the detector yields at least one interval, both
classifiers set the death date to the start of the first interval and the
died-again flag exactly when more than one interval exists; `analyze_repo`
of `pipeline-fase-1.py` sets the revival date to the end of the first
interval only if some commit timestamp strictly exceeds it (and `null`
otherwise), while `analyze_repo` of `pipeline-unificado-2022.py` sets the
revival date to that end unconditionally. -/
theorem analyzeRepo_first_interval (repoF : RepoFase1) (repoU : RepoUnificado)
    (morte revive : Int) (rest : List (Int × Int)) :
    ((historyNodes repoF.defaultBranchRef).isEmpty = false →
      detect_inactivity_periods (fase1Dates repoF) 180 = (morte, revive) :: rest →
      analyzeRepoFase1 repoF =
        some ⟨repoF.nameWithOwner, repoF.primaryLanguage.getD "N/A", repoF.stargazerCount,
              repoF.url, morte,
              if (fase1Dates repoF).any (fun c => decide (revive < c)) then some revive
                else none,
              if rest.isEmpty then 0 else 1,
              (fase1Dates repoF).length⟩)
    ∧ (∀ commitDates : List Int,
        (historyNodes repoU.defaultBranchRef).isEmpty = false →
        (historyNodes repoU.defaultBranchRef).mapM extractDate = Except.ok commitDates →
        detect_inactivity_periods (sortAscInt commitDates) 180 = (morte, revive) :: rest →
        analyzeRepoUnificado repoU =
          Except.ok (some ⟨repoU.nameWithOwner, repoU.stargazerCount, repoU.url,
            some morte, some revive, if rest.isEmpty then 0 else 1⟩)) := by
  constructor
  · intro hne hdet
    simp only [analyzeRepoFase1, hne, Bool.false_eq_true, if_false, hdet]
  · intro commitDates hne hmap hdet
    simp only [analyzeRepoUnificado, hne, Bool.false_eq_true, if_false, hmap, hdet]

/-- A fase-1 repository whose history has a 200-day gap followed by a
confirmed later commit. -/
def c3wRepoF : RepoFase1 :=
  ⟨"w/f", 3, "https://example.invalid/wf", some "Python",
   some ⟨some ⟨some ⟨[⟨some 0⟩, ⟨some 17280000⟩, ⟨some 17366400⟩]⟩⟩⟩⟩

/-- Witness for `analyzeRepo_first_interval`, discharging its hypotheses
on concrete repositories with a single 200-day gap. -/
theorem analyzeRepo_first_interval_witness :
    analyzeRepoFase1 c3wRepoF =
      some ⟨"w/f", "Python", 3, "https://example.invalid/wf", 0,
        if (fase1Dates c3wRepoF).any (fun c => decide ((17280000:Int) < c)) then some 17280000
          else none,
        if ([] : List (Int × Int)).isEmpty then 0 else 1,
        (fase1Dates c3wRepoF).length⟩
    ∧ analyzeRepoUnificado c3Repo =
      Except.ok (some ⟨"road/kill", 1, "https://example.invalid/rk",
        some 0, some 17280000,
        if ([] : List (Int × Int)).isEmpty then 0 else 1⟩) :=
  ⟨(analyzeRepo_first_interval c3wRepoF c3Repo 0 17280000 []).1 (by decide) (by decide),
   (analyzeRepo_first_interval c3wRepoF c3Repo 0 17280000 []).2 [0, 17280000]
     (by decide) rfl (by decide)⟩

/-- A fase-1 repository with a single commit: non-empty history, zero
inactivity intervals. -/
def c8Repo : RepoFase1 :=
  ⟨"lone/commit", 2, "https://example.invalid/lc", none,
   some ⟨some ⟨some ⟨[⟨some 0⟩]⟩⟩⟩⟩

/-- **C8 counterexample.** On a non-empty commit list with zero inactivity
intervals, `analyze_repo` of `pipeline-fase-1.py` yields `None`, not the
never-inactive record (death `null`, revival `null`, died-again false)
that the claim describes. -/
theorem analyzeRepoFase1_drops_never_inactive :
    analyzeRepoFase1 c8Repo = none
    ∧ (historyNodes c8Repo.defaultBranchRef).isEmpty = false :=
  ⟨rfl, rfl⟩

/-- **C8 (amended).** Both classifiers yield the no-data sentinel `None`
on an empty commit list.  When the commit list is non-empty and detection
yields zero intervals, `analyze_repo` of `pipeline-unificado-2022.py`
yields the never-inactive record (death `null`, revival `null`, died-again
`0`), while `analyze_repo` of `pipeline-fase-1.py` yields `None` in that
case as well. -/
theorem analyzeRepo_empty_and_zero_intervals (repoU : RepoUnificado) (repoF : RepoFase1) :
    ((historyNodes repoU.defaultBranchRef).isEmpty = true →
      analyzeRepoUnificado repoU = Except.ok none)
    ∧ ((historyNodes repoF.defaultBranchRef).isEmpty = true →
      analyzeRepoFase1 repoF = none)
    ∧ (∀ commitDates : List Int,
        (historyNodes repoU.defaultBranchRef).isEmpty = false →
        (historyNodes repoU.defaultBranchRef).mapM extractDate = Except.ok commitDates →
        detect_inactivity_periods (sortAscInt commitDates) 180 = [] →
        analyzeRepoUnificado repoU =
          Except.ok (some ⟨repoU.nameWithOwner, repoU.stargazerCount, repoU.url,
            none, none, 0⟩))
    ∧ ((historyNodes repoF.defaultBranchRef).isEmpty = false →
        detect_inactivity_periods (fase1Dates repoF) 180 = [] →
        analyzeRepoFase1 repoF = none) := by
  refine ⟨?_, ?_, ?_, ?_⟩
  · intro he
    simp only [analyzeRepoUnificado, he, if_true]
  · intro he
    simp only [analyzeRepoFase1, he, if_true]
  · intro commitDates hne hmap hdet
    simp only [analyzeRepoUnificado, hne, Bool.false_eq_true, if_false, hmap, hdet]
  · intro hne hdet
    simp only [analyzeRepoFase1, hne, Bool.false_eq_true, if_false, hdet]

/-- An unificado repository with all commits inside a five-day span. -/
def c8wRepoU : RepoUnificado :=
  ⟨"busy/week", 5, "https://example.invalid/bw",
   some ⟨some ⟨some ⟨[⟨some 0⟩, ⟨some 432000⟩]⟩⟩⟩⟩

/-- An unificado repository whose branch chain carries no commits. -/
def c8wEmptyU : RepoUnificado :=
  ⟨"no/data", 0, "https://example.invalid/nd", none⟩

/-- Witness for `analyzeRepo_empty_and_zero_intervals` on concrete
repositories: an empty history gives the sentinel, a five-day-span history
gives the never-inactive record, and fase-1 gives `None` on both. -/
theorem analyzeRepo_empty_and_zero_intervals_witness :
    analyzeRepoUnificado c8wEmptyU = Except.ok none
    ∧ analyzeRepoFase1 c8Repo = none
    ∧ analyzeRepoUnificado c8wRepoU =
        Except.ok (some ⟨"busy/week", 5, "https://example.invalid/bw", none, none, 0⟩) :=
  ⟨(analyzeRepo_empty_and_zero_intervals c8wEmptyU c8Repo).1 (by decide),
   (analyzeRepo_empty_and_zero_intervals c8wRepoU c8Repo).2.2.2 (by decide) (by decide),
   (analyzeRepo_empty_and_zero_intervals c8wRepoU c8Repo).2.2.1 [0, 432000]
     (by decide) rfl (by decide)⟩

/-!
### `run_query`

`pipeline/pipeline-pilar3.py` lines 64-89 (bounded: `RETRY_LIMIT = 3`
attempts) and `pipeline-unificado-2022.py` lines 40-62 (a `while True`
loop).  The transport is an oracle from the request number to the
response.  A status-200 response carries the payload: `errors` is `some`
when the `"errors"` key is present (any value, even an empty list) and
`dat` is `payload.get("data")`.
-/

/-- `RETRY_LIMIT` of `pipeline-pilar3.py`. -/
def RETRY_LIMIT : Nat := 3

/-- One `requests.post` outcome: a 200 answer with its payload, or a
non-200 HTTP status. -/
inductive HttpResp (α : Type) where
  | ok (errors : Option (List String)) (dat : Option α)
  | httpStatus (code : Nat)

/-- The retry loop of `run_query` in `pipeline-pilar3.py`: `n` attempts
remain, `used` requests were already made.  Returns the result together
with the number of requests issued.  On 200 with an `"errors"` key it
returns `None` at once; on any non-200 status it sleeps and retries. -/
def runQueryPilar3Go (oracle : Nat → HttpResp α) : Nat → Nat → Option α × Nat
  | 0, used => (none, used)
  | n + 1, used =>
    match oracle used with
    | HttpResp.ok errors dat =>
      match errors with
      | some _ => (none, used + 1)
      | none => (dat, used + 1)
    | HttpResp.httpStatus _ => runQueryPilar3Go oracle n (used + 1)

/-- `run_query` of `pipeline/pipeline-pilar3.py`. -/
def run_query_pilar3 (oracle : Nat → HttpResp α) : Option α × Nat :=
  runQueryPilar3Go oracle RETRY_LIMIT 0

/-- `run_query` of `pipeline-unificado-2022.py`, a `while True` loop,
modelled with explicit fuel: `none` means the loop is still running after
`fuel` iterations; `some r` means it returned `r`.  Status 502 and 403
sleep and retry; any other non-200 status returns `None` immediately. -/
def runQueryUnifFuel (oracle : Nat → HttpResp α) : Nat → Nat → Option (Option α)
  | 0, _ => none
  | n + 1, i =>
    match oracle i with
    | HttpResp.ok errors dat =>
      match errors with
      | some _ => some none
      | none => some dat
    | HttpResp.httpStatus code =>
      if code = 502 then runQueryUnifFuel oracle n (i + 1)
      else if code = 403 then runQueryUnifFuel oracle n (i + 1)
      else some none

theorem runQueryPilar3Go_used_le (oracle : Nat → HttpResp α) :
    ∀ n used, (runQueryPilar3Go oracle n used).2 ≤ used + n
  | 0, used => Nat.le_refl used
  | n + 1, used => by
    cases hr : oracle used with
    | ok errors dat =>
      cases errors <;> simp [runQueryPilar3Go, hr]
    | httpStatus code =>
      have ih := runQueryPilar3Go_used_le oracle n (used + 1)
      simp only [runQueryPilar3Go, hr]
      omega

theorem runQueryPilar3Go_all_non200 (oracle : Nat → HttpResp α) :
    ∀ n i, (∀ j, i ≤ j → j < i + n → ∃ code, oracle j = HttpResp.httpStatus code) →
      runQueryPilar3Go oracle n i = (none, i + n)
  | 0, i, _ => rfl
  | n + 1, i, h => by
    obtain ⟨code, hcode⟩ := h i (Nat.le_refl i) (by omega)
    have ih := runQueryPilar3Go_all_non200 oracle n (i + 1)
      (fun j hj1 hj2 => h j (by omega) (by omega))
    simp only [runQueryPilar3Go, hcode, ih, Prod.mk.injEq, true_and]
    omega

theorem runQueryUnifFuel_const502 (α : Type) :
    ∀ fuel i, runQueryUnifFuel (fun _ => (HttpResp.httpStatus 502 : HttpResp α)) fuel i = none
  | 0, _ => rfl
  | fuel + 1, i => by
    simp only [runQueryUnifFuel, if_pos rfl]
    exact runQueryUnifFuel_const502 α fuel (i + 1)

/-- **C5 counterexample.** `run_query` of `pipeline-unificado-2022.py`
given a permanent HTTP 502 is still retrying after one thousand requests:
it has no bounded attempt budget and never returns a terminal failure
value. -/
theorem runQueryUnif_unbounded_on_502 :
    runQueryUnifFuel (fun _ => (HttpResp.httpStatus 502 : HttpResp Unit)) 1000 0 = none :=
  runQueryUnifFuel_const502 Unit 1000 0

/-- **C5 (amended).** `run_query` of `pipeline-pilar3.py` fails
immediately without retrying (returning `None` after a single request)
when a 200 response carries an `"errors"` key; it issues at most
`RETRY_LIMIT = 3` requests, and when every attempt meets a non-200 status
(such as a permanent 502) it returns the terminal failure value `None`
after exactly 3 requests.  `run_query` of `pipeline-unificado-2022.py`
also fails without retry on application-level errors, but retries a
permanent 502 without any bound instead of returning a terminal failure. -/
theorem run_query_spec (α : Type) (oracle oracle2 : Nat → HttpResp α)
    (errs : List String) (dat : Option α) (fuel i : Nat)
    (h200 : oracle 0 = HttpResp.ok (some errs) dat)
    (hall : ∀ j, j < RETRY_LIMIT → ∃ code, oracle2 j = HttpResp.httpStatus code) :
    run_query_pilar3 oracle = (none, 1)
    ∧ (∀ oracle3 : Nat → HttpResp α, (run_query_pilar3 oracle3).2 ≤ RETRY_LIMIT)
    ∧ run_query_pilar3 oracle2 = (none, RETRY_LIMIT)
    ∧ runQueryUnifFuel (fun _ => (HttpResp.httpStatus 502 : HttpResp α)) fuel i = none
    ∧ (oracle 0 = HttpResp.ok (some errs) dat →
        runQueryUnifFuel oracle (fuel + 1) 0 = some none) := by
  refine ⟨?_, ?_, ?_, runQueryUnifFuel_const502 α fuel i, ?_⟩
  · simp only [run_query_pilar3, RETRY_LIMIT, runQueryPilar3Go, h200]
  · intro oracle3
    exact runQueryPilar3Go_used_le oracle3 RETRY_LIMIT 0
  · have := runQueryPilar3Go_all_non200 oracle2 RETRY_LIMIT 0
      (fun j hj1 hj2 => hall j (by omega))
    simpa using this
  · intro h
    simp only [runQueryUnifFuel, h]

/-- Witness for `run_query_spec`: a first response carrying GraphQL
errors makes the pilar3 client fail after one request, while a permanent
502 exhausts its three attempts; the unificado client is still looping
after seven iterations of permanent 502. -/
theorem run_query_spec_witness :
    run_query_pilar3 (fun _ => (HttpResp.ok (some ["boom"]) none : HttpResp Unit)) = (none, 1)
    ∧ run_query_pilar3 (fun _ => (HttpResp.httpStatus 502 : HttpResp Unit)) =
        (none, RETRY_LIMIT)
    ∧ runQueryUnifFuel (fun _ => (HttpResp.httpStatus 502 : HttpResp Unit)) 7 0 = none := by
  have h := run_query_spec Unit (fun _ => HttpResp.ok (some ["boom"]) none)
    (fun _ => HttpResp.httpStatus 502) ["boom"] none 7 0 rfl
    (fun j _ => ⟨502, rfl⟩)
  exact ⟨h.1, h.2.2.1, h.2.2.2.1⟩

/-!
### `fetch_commits`

`pipeline/pipeline-pilar3.py` lines 92-113: extracts the commit nodes out
of the `run_query` answer for `COMMITS_WINDOW_QUERY`, returning `[]` on
every missing level.
-/

/-- `history` object of the window query: `{"nodes": [...]}`; the empty
object of `target.get("history") or {}` is `⟨[]⟩` (its `nodes` default is
`[]`). -/
structure WindowHistory where
  nodes : List GNode
deriving DecidableEq

/-- `target` object of the window query (the empty object of
`repo["defaultBranchRef"].get("target") or {}` is `⟨none⟩`). -/
structure WindowTarget where
  history : Option WindowHistory
deriving DecidableEq

/-- `defaultBranchRef` object of the window query. -/
structure WindowBranchRef where
  name : String
  target : Option WindowTarget
deriving DecidableEq

/-- `repository` object of the window query. -/
structure RepositoryData where
  nameWithOwner : String
  defaultBranchRef : Option WindowBranchRef
deriving DecidableEq

/-- The `data` part of a `COMMITS_WINDOW_QUERY` answer. -/
structure QueryData where
  repository : Option RepositoryData
deriving DecidableEq

/-- `fetch_commits` of `pipeline/pipeline-pilar3.py` (lines 92-113),
applied to the `run_query` result it consumes. -/
def fetch_commits (data : Option QueryData) : List GNode :=
  match data with
  | none => []
  | some d =>
    match d.repository with
    | none => []
    | some repo =>
      match repo.defaultBranchRef with
      | none => []
      | some br =>
        let target := br.target.getD ⟨none⟩
        let history := target.history.getD ⟨[]⟩
        history.nodes

/-- `fetch_commits` composed with the `run_query` transport it calls. -/
def fetch_commits_via (oracle : Nat → HttpResp QueryData) : List GNode :=
  fetch_commits (run_query_pilar3 oracle).1

/-- **C7.** `fetch_commits` returns the empty sequence — never a failure —
whenever the query answer is missing (`run_query` returned `None`), the
repository is missing, the repository has no default branch, or there is
no commit history (no `target`, or no `history` object). -/
theorem fetch_commits_empty_cases (oracle : Nat → HttpResp QueryData)
    (nwo bn : String) :
    fetch_commits none = []
    ∧ fetch_commits (some ⟨none⟩) = []
    ∧ fetch_commits (some ⟨some ⟨nwo, none⟩⟩) = []
    ∧ fetch_commits (some ⟨some ⟨nwo, some ⟨bn, none⟩⟩⟩) = []
    ∧ fetch_commits (some ⟨some ⟨nwo, some ⟨bn, some ⟨none⟩⟩⟩⟩) = []
    ∧ ((run_query_pilar3 oracle).1 = none → fetch_commits_via oracle = []) := by
  refine ⟨rfl, rfl, rfl, rfl, rfl, ?_⟩
  intro h
  simp only [fetch_commits_via, h, fetch_commits]

/-- Witness for `fetch_commits_empty_cases`: a transport that always
answers HTTP 500 makes `run_query` fail and `fetch_commits` return the
empty list. -/
theorem fetch_commits_empty_cases_witness :
    fetch_commits_via (fun _ => HttpResp.httpStatus 500) = [] :=
  (fetch_commits_empty_cases (fun _ => HttpResp.httpStatus 500) "o/r" "main").2.2.2.2.2 rfl

/-!
### `pick_pre_death_commit`

`pipeline/pipeline-pilar3.py` lines 116-143.  The remote side is an
oracle `fetch` from the window size in days to the node list answered for
`[death_date - window, death_date + 1 day]` (the value of
`fetch_commits`).  Direct indexes `node["committedDate"]` and
`node["oid"]` are `KeyError`s on missing keys, hence the `Except Unit`
result.
-/

/-- The window ladder of `pick_pre_death_commit`. -/
def preDeathWindows : List Nat := [90, 180, 365, 730]

/-- The body of the parse loop of `pick_pre_death_commit`: read
`node["committedDate"]`, keep the commit when `committed_at <=
end_boundary`, reading `node["oid"]` and defaulting
`node.get("messageHeadline", "")`. -/
def preDeathStep (endBoundary : Int) (acc : List SnapshotCommit) (node : GNode) :
    Except Unit (List SnapshotCommit) :=
  match node.committedDate with
  | none => Except.error ()
  | some t =>
    if t ≤ endBoundary then
      match node.oid with
      | none => Except.error ()
      | some sha => Except.ok (acc ++ [⟨sha, t, node.messageHeadline⟩])
    else Except.ok acc

/-- The parse loop of `pick_pre_death_commit` over one fetched window. -/
def parsePreDeath (endBoundary : Int) (nodes : List GNode) :
    Except Unit (List SnapshotCommit) :=
  nodes.foldlM (preDeathStep endBoundary) []

/-- The window loop of `pick_pre_death_commit`: skip a window whose fetch
is empty or whose parsed qualifying list is empty, otherwise sort the
qualifying commits by timestamp descending and return the first. -/
def pickPreDeathGo (fetch : Nat → List GNode) (deathDate : Int) :
    List Nat → Except Unit (Option SnapshotCommit)
  | [] => Except.ok none
  | w :: ws =>
    let commits := fetch w
    if commits.isEmpty then pickPreDeathGo fetch deathDate ws
    else
      match parsePreDeath (deathDate + secondsPerDay) commits with
      | Except.error e => Except.error e
      | Except.ok parsed =>
        if parsed.isEmpty then pickPreDeathGo fetch deathDate ws
        else Except.ok ((sortByTimeDesc parsed).head?)

/-- `pick_pre_death_commit` of `pipeline/pipeline-pilar3.py`. -/
def pick_pre_death_commit (fetch : Nat → List GNode) (deathDate : Int) :
    Except Unit (Option SnapshotCommit) :=
  pickPreDeathGo fetch deathDate preDeathWindows

/-- A node both of whose GraphQL-non-null keys are present. -/
def wellFormed (n : GNode) : Bool :=
  n.oid.isSome && n.committedDate.isSome

/-- The qualifying filter of one window: commits with `committed_at <=
end_boundary`, as `SnapshotCommit`s. -/
def preQualFilter (endBoundary : Int) (node : GNode) : Option SnapshotCommit :=
  match node.oid, node.committedDate with
  | some sha, some t =>
    if t ≤ endBoundary then some ⟨sha, t, node.messageHeadline⟩ else none
  | _, _ => none

/-- The qualifying commits of window `w`: fetched commits whose
`committed_at` is at most `death_date + 1 day`. -/
def qualifyingPre (fetch : Nat → List GNode) (deathDate : Int) (w : Nat) :
    List SnapshotCommit :=
  (fetch w).filterMap (preQualFilter (deathDate + secondsPerDay))

theorem parsePreDeath_from (endBoundary : Int) :
    ∀ (nodes : List GNode) (acc : List SnapshotCommit),
      (∀ n ∈ nodes, wellFormed n = true) →
      List.foldlM (preDeathStep endBoundary) acc nodes =
        Except.ok (acc ++ nodes.filterMap (preQualFilter endBoundary))
  | [], acc, _ => by
    show Except.ok acc = _
    simp
  | n :: ns, acc, h => by
    have hn := h n (List.mem_cons_self n ns)
    simp only [wellFormed, Bool.and_eq_true, Option.isSome_iff_exists] at hn
    obtain ⟨⟨sha, hsha⟩, t, ht⟩ := hn
    have ih := parsePreDeath_from endBoundary ns
    simp only [List.foldlM_cons, List.filterMap_cons, preDeathStep, preQualFilter, hsha, ht]
    by_cases hle : t ≤ endBoundary
    · simp only [if_pos hle]
      show List.foldlM (preDeathStep endBoundary) (acc ++ [⟨sha, t, n.messageHeadline⟩]) ns = _
      have step := ih (acc ++ [(⟨sha, t, n.messageHeadline⟩ : SnapshotCommit)])
        (fun m hm => h m (List.mem_cons_of_mem n hm))
      rw [step]
      simp
    · simp only [if_neg hle]
      show List.foldlM (preDeathStep endBoundary) acc ns = _
      rw [ih acc (fun m hm => h m (List.mem_cons_of_mem n hm))]

theorem parsePreDeath_wf (endBoundary : Int) (nodes : List GNode)
    (h : ∀ n ∈ nodes, wellFormed n = true) :
    parsePreDeath endBoundary nodes =
      Except.ok (nodes.filterMap (preQualFilter endBoundary)) := by
  have := parsePreDeath_from endBoundary nodes [] h
  simpa [parsePreDeath] using this

theorem mem_qualifyingPre_le {fetch : Nat → List GNode} {deathDate : Int} {w : Nat}
    {x : SnapshotCommit} (hx : x ∈ qualifyingPre fetch deathDate w) :
    x.committed_at ≤ deathDate + secondsPerDay := by
  simp only [qualifyingPre, List.mem_filterMap] at hx
  obtain ⟨node, _, hf⟩ := hx
  unfold preQualFilter at hf
  rcases hoid : node.oid with _ | sha <;> rcases hcd : node.committedDate with _ | t <;>
    simp [hoid, hcd] at hf
  obtain ⟨hle, hxeq⟩ := hf
  rw [← hxeq]
  exact hle

theorem sortByTimeDesc_sorted (l : List SnapshotCommit) :
    (sortByTimeDesc l).Sorted
      (fun a b : SnapshotCommit => b.committed_at ≤ a.committed_at) := by
  haveI : IsTotal SnapshotCommit
      (fun a b : SnapshotCommit => b.committed_at ≤ a.committed_at) :=
    ⟨fun a b => le_total b.committed_at a.committed_at⟩
  haveI : IsTrans SnapshotCommit
      (fun a b : SnapshotCommit => b.committed_at ≤ a.committed_at) :=
    ⟨fun _ _ _ hab hbc => le_trans hbc hab⟩
  exact List.sorted_insertionSort _ l

theorem sortByTimeDesc_perm (l : List SnapshotCommit) : (sortByTimeDesc l).Perm l :=
  List.perm_insertionSort _ l

theorem sortByTimeDesc_head_max {l : List SnapshotCommit} (hne : l ≠ []) :
    ∃ c, (sortByTimeDesc l).head? = some c ∧ c ∈ l
      ∧ ∀ x ∈ l, x.committed_at ≤ c.committed_at := by
  cases hs : sortByTimeDesc l with
  | nil =>
    have := (sortByTimeDesc_perm l).length_eq
    rw [hs] at this
    exact absurd (List.length_eq_zero.mp this.symm) hne
  | cons c rest =>
    refine ⟨c, rfl, ?_, ?_⟩
    · have hc : c ∈ sortByTimeDesc l := by rw [hs]; exact List.mem_cons_self c rest
      exact (sortByTimeDesc_perm l).mem_iff.mp hc
    · intro x hx
      have hx2 : x ∈ c :: rest := by
        rw [← hs]
        exact (sortByTimeDesc_perm l).mem_iff.mpr hx
      rcases List.mem_cons.mp hx2 with h | h
      · rw [h]
      · have hsort := sortByTimeDesc_sorted l
        rw [hs] at hsort
        exact (List.sorted_cons.mp hsort).1 x h

theorem qualifyingPre_nil {fetch : Nat → List GNode} {deathDate : Int} {w : Nat}
    (h : (fetch w).isEmpty = true) : qualifyingPre fetch deathDate w = [] := by
  rw [qualifyingPre, List.isEmpty_iff.mp h]
  rfl

theorem pickPreDeathGo_none_iff (fetch : Nat → List GNode) (deathDate : Int) :
    ∀ ws : List Nat, (∀ w ∈ ws, ∀ n ∈ fetch w, wellFormed n = true) →
      (pickPreDeathGo fetch deathDate ws = Except.ok none ↔
        ∀ w ∈ ws, qualifyingPre fetch deathDate w = [])
  | [], _ => by simp [pickPreDeathGo]
  | w :: ws, h => by
    have ih := pickPreDeathGo_none_iff fetch deathDate ws
      (fun w2 hw2 => h w2 (List.mem_cons_of_mem w hw2))
    by_cases hf : (fetch w).isEmpty
    · have hq : qualifyingPre fetch deathDate w = [] := qualifyingPre_nil hf
      simp only [pickPreDeathGo, if_pos hf, List.forall_mem_cons, ih, hq, true_and]
    · have hp := parsePreDeath_wf (deathDate + secondsPerDay) (fetch w)
        (h w (List.mem_cons_self w ws))
      simp only [pickPreDeathGo, if_neg hf, hp]
      by_cases hq : ((fetch w).filterMap (preQualFilter (deathDate + secondsPerDay))).isEmpty
      · have hq2 : qualifyingPre fetch deathDate w = [] := by
          rw [qualifyingPre]
          exact List.isEmpty_iff.mp hq
        simp only [if_pos hq, List.forall_mem_cons, ih, hq2, true_and]
      · have hne : (fetch w).filterMap (preQualFilter (deathDate + secondsPerDay)) ≠ [] :=
          fun hcon => hq (by rw [hcon]; rfl)
        obtain ⟨c, hc, _, _⟩ := sortByTimeDesc_head_max hne
        simp only [if_neg hq, hc]
        constructor
        · intro hcon
          exact absurd hcon (by simp)
        · intro hall
          exact absurd (hall w (List.mem_cons_self w ws)) (by rw [qualifyingPre]; exact hne)

theorem pickPreDeathGo_some (fetch : Nat → List GNode) (deathDate : Int) :
    ∀ ws : List Nat, (∀ w ∈ ws, ∀ n ∈ fetch w, wellFormed n = true) →
      ∀ c, pickPreDeathGo fetch deathDate ws = Except.ok (some c) →
        ∃ ws1 w ws2, ws = ws1 ++ w :: ws2
          ∧ (∀ w2 ∈ ws1, qualifyingPre fetch deathDate w2 = [])
          ∧ c ∈ qualifyingPre fetch deathDate w
          ∧ ∀ x ∈ qualifyingPre fetch deathDate w, x.committed_at ≤ c.committed_at
  | [], _, c, hc => by simp [pickPreDeathGo] at hc
  | w :: ws, h, c, hc => by
    have htail := fun w2 hw2 => h w2 (List.mem_cons_of_mem w hw2)
    by_cases hf : (fetch w).isEmpty
    · rw [pickPreDeathGo, if_pos hf] at hc
      obtain ⟨ws1, w0, ws2, hsplit, hpre, hmem, hmax⟩ :=
        pickPreDeathGo_some fetch deathDate ws htail c hc
      exact ⟨w :: ws1, w0, ws2, by rw [hsplit]; rfl,
        List.forall_mem_cons.mpr ⟨qualifyingPre_nil hf, hpre⟩, hmem, hmax⟩
    · have hp := parsePreDeath_wf (deathDate + secondsPerDay) (fetch w)
        (h w (List.mem_cons_self w ws))
      rw [pickPreDeathGo, if_neg hf] at hc
      simp only [hp] at hc
      by_cases hq : ((fetch w).filterMap (preQualFilter (deathDate + secondsPerDay))).isEmpty
      · rw [if_pos hq] at hc
        obtain ⟨ws1, w0, ws2, hsplit, hpre, hmem, hmax⟩ :=
          pickPreDeathGo_some fetch deathDate ws htail c hc
        have hq2 : qualifyingPre fetch deathDate w = [] := by
          rw [qualifyingPre]
          exact List.isEmpty_iff.mp hq
        exact ⟨w :: ws1, w0, ws2, by rw [hsplit]; rfl,
          List.forall_mem_cons.mpr ⟨hq2, hpre⟩, hmem, hmax⟩
      · have hne : (fetch w).filterMap (preQualFilter (deathDate + secondsPerDay)) ≠ [] :=
          fun hcon => hq (by rw [hcon]; rfl)
        rw [if_neg hq] at hc
        obtain ⟨c0, hc0, hmem, hmax⟩ := sortByTimeDesc_head_max hne
        rw [hc0] at hc
        have : c0 = c := by
          have := Except.ok.inj hc
          exact Option.some.inj this
        rw [this] at hmem hmax
        exact ⟨[], w, ws, rfl, by simp, hmem, hmax⟩

theorem pickPreDeathGo_ok (fetch : Nat → List GNode) (deathDate : Int) :
    ∀ ws : List Nat, (∀ w ∈ ws, ∀ n ∈ fetch w, wellFormed n = true) →
      ∃ r, pickPreDeathGo fetch deathDate ws = Except.ok r
  | [], _ => ⟨none, rfl⟩
  | w :: ws, h => by
    have ih := pickPreDeathGo_ok fetch deathDate ws
      (fun w2 hw2 => h w2 (List.mem_cons_of_mem w hw2))
    by_cases hf : (fetch w).isEmpty
    · rw [pickPreDeathGo, if_pos hf]
      exact ih
    · have hp := parsePreDeath_wf (deathDate + secondsPerDay) (fetch w)
        (h w (List.mem_cons_self w ws))
      rw [pickPreDeathGo, if_neg hf]
      simp only [hp]
      by_cases hq : ((fetch w).filterMap (preQualFilter (deathDate + secondsPerDay))).isEmpty
      · rw [if_pos hq]
        exact ih
      · rw [if_neg hq]
        exact ⟨_, rfl⟩

/-- **C2.** Under well-formed fetched nodes, `pick_pre_death_commit` never
raises; it returns the not-found value `None` exactly when no window of
the ladder 90, 180, 365, 730 yields a qualifying commit (one with
`committed_at <= death_date + 1 day`); and when it returns a commit, that
commit is at most `death_date + 1 day`, belongs to the first window of the
ladder whose qualifying set is non-empty (all narrower windows qualifying
sets being empty), and carries the latest timestamp among that window's
qualifying commits. -/
theorem pick_pre_death_commit_spec (fetch : Nat → List GNode) (deathDate : Int)
    (hwf : ∀ w ∈ preDeathWindows, ∀ n ∈ fetch w, wellFormed n = true) :
    (∃ r, pick_pre_death_commit fetch deathDate = Except.ok r)
    ∧ (pick_pre_death_commit fetch deathDate = Except.ok none ↔
        ∀ w ∈ preDeathWindows, qualifyingPre fetch deathDate w = [])
    ∧ (∀ c, pick_pre_death_commit fetch deathDate = Except.ok (some c) →
        c.committed_at ≤ deathDate + secondsPerDay
        ∧ ∃ ws1 w ws2, preDeathWindows = ws1 ++ w :: ws2
            ∧ (∀ w2 ∈ ws1, qualifyingPre fetch deathDate w2 = [])
            ∧ c ∈ qualifyingPre fetch deathDate w
            ∧ ∀ x ∈ qualifyingPre fetch deathDate w,
                x.committed_at ≤ c.committed_at) := by
  refine ⟨pickPreDeathGo_ok fetch deathDate preDeathWindows hwf,
    pickPreDeathGo_none_iff fetch deathDate preDeathWindows hwf, ?_⟩
  intro c hc
  obtain ⟨ws1, w, ws2, hsplit, hpre, hmem, hmax⟩ :=
    pickPreDeathGo_some fetch deathDate preDeathWindows hwf c hc
  exact ⟨mem_qualifyingPre_le hmem, ws1, w, ws2, hsplit, hpre, hmem, hmax⟩

/-- A transport for the pre-death search: the 90-day window is empty, all
wider windows hold one commit at timestamp 100. -/
def c2Fetch : Nat → List GNode := fun w =>
  if w = 90 then [] else [⟨some "a1b2", some 100, "fix"⟩]

/-- Witness for `pick_pre_death_commit_spec`: with death date 0 the search
skips the empty 90-day window and returns the single qualifying commit of
the 180-day window. -/
theorem pick_pre_death_commit_spec_witness :
    pick_pre_death_commit c2Fetch 0 = Except.ok (some ⟨"a1b2", 100, "fix"⟩)
    ∧ ((⟨"a1b2", 100, "fix"⟩ : SnapshotCommit).committed_at ≤ 0 + secondsPerDay
      ∧ ∃ ws1 w ws2, preDeathWindows = ws1 ++ w :: ws2
          ∧ (∀ w2 ∈ ws1, qualifyingPre c2Fetch 0 w2 = [])
          ∧ (⟨"a1b2", 100, "fix"⟩ : SnapshotCommit) ∈ qualifyingPre c2Fetch 0 w
          ∧ ∀ x ∈ qualifyingPre c2Fetch 0 w,
              x.committed_at ≤ (⟨"a1b2", 100, "fix"⟩ : SnapshotCommit).committed_at) :=
  ⟨rfl, (pick_pre_death_commit_spec c2Fetch 0 (by decide)).2.2 ⟨"a1b2", 100, "fix"⟩ rfl⟩

/-!
### `pick_post_revive_commit`

`pipeline/pipeline-pilar3.py` lines 146-177.  The oracle `fetch` maps the
window size in days to the nodes answered for
`[revive_date, revive_date + window]`.  The running collection
`collected` is a Python dict keyed by sha: insertion order is kept, and
overwriting an existing key keeps its position.  It is modelled as an
association list.
-/

/-- The window ladder of `pick_post_revive_commit`. -/
def postReviveWindows : List Nat := [30, 90, 180, 365, 730]

/-- The `collected` dict of `pick_post_revive_commit`, keyed by sha, in
insertion order. -/
abbrev CommitDict := List (String × SnapshotCommit)

/-- `collected[sha] = commit`: overwrite in place when the key exists
(keeping its position, as a Python dict does), else append. -/
def dictInsert (d : CommitDict) (sha : String) (c : SnapshotCommit) : CommitDict :=
  if d.any (fun p => p.1 == sha) then
    d.map (fun p => if p.1 == sha then (sha, c) else p)
  else d ++ [(sha, c)]

/-- `collected.values()`, in insertion order. -/
def dictValues (d : CommitDict) : List SnapshotCommit :=
  d.map (fun p => p.2)

/-- The body of the per-node loop of `pick_post_revive_commit`: skip a
falsy `committedDate`, keep commits with `committed_at >= revive_date`,
skip a falsy `oid`, store under the sha. -/
def collectNode (reviveDate : Int) (acc : CommitDict) (node : GNode) : CommitDict :=
  match node.committedDate with
  | none => acc
  | some t =>
    if reviveDate ≤ t then
      match node.oid with
      | none => acc
      | some sha => dictInsert acc sha ⟨sha, t, node.messageHeadline⟩
    else acc

/-- One window's worth of accumulation into `collected`. -/
def collectWindow (reviveDate : Int) (acc : CommitDict) (nodes : List GNode) : CommitDict :=
  nodes.foldl (collectNode reviveDate) acc

/-- The window loop of `pick_post_revive_commit`: skip empty fetches,
accumulate, sort the collected values ascending by timestamp, and return
the element at index 9 as soon as the collection holds at least 10
commits. -/
def pickPostReviveGo (fetch : Nat → List GNode) (reviveDate : Int) :
    List Nat → CommitDict → Option SnapshotCommit
  | [], _ => none
  | w :: ws, collected =>
    let commits := fetch w
    if commits.isEmpty then pickPostReviveGo fetch reviveDate ws collected
    else
      let collected2 := collectWindow reviveDate collected commits
      let ordered := sortByTimeAsc (dictValues collected2)
      if 10 ≤ ordered.length then ordered[9]?
      else pickPostReviveGo fetch reviveDate ws collected2

/-- `pick_post_revive_commit` of `pipeline/pipeline-pilar3.py`. -/
def pick_post_revive_commit (fetch : Nat → List GNode) (reviveDate : Int) :
    Option SnapshotCommit :=
  pickPostReviveGo fetch reviveDate postReviveWindows []

/-- One ladder step of the accumulation, as seen from the specification. -/
def stepWindow (fetch : Nat → List GNode) (reviveDate : Int)
    (acc : CommitDict) (w : Nat) : CommitDict :=
  collectWindow reviveDate acc (fetch w)

/-- The collection accumulated after processing windows `0..k` of `ws`
starting from `col`. -/
def accumFrom (fetch : Nat → List GNode) (reviveDate : Int) (col : CommitDict)
    (ws : List Nat) (k : Nat) : CommitDict :=
  (ws.take (k + 1)).foldl (stepWindow fetch reviveDate) col

/-- The deduplicated-by-hash collection accumulated across the first
`k + 1` windows of the ladder. -/
def postAccum (fetch : Nat → List GNode) (reviveDate : Int) (k : Nat) : CommitDict :=
  accumFrom fetch reviveDate [] postReviveWindows k

/-- The number of distinct commits accumulated across the first `k + 1`
windows of the ladder. -/
def postCount (fetch : Nat → List GNode) (reviveDate : Int) (k : Nat) : Nat :=
  (postAccum fetch reviveDate k).length

theorem dictInsert_length_ge (d : CommitDict) (sha : String) (c : SnapshotCommit) :
    d.length ≤ (dictInsert d sha c).length := by
  unfold dictInsert
  by_cases h : d.any (fun p => p.1 == sha)
  · rw [if_pos h, List.length_map]
  · rw [if_neg h, List.length_append]
    simp

theorem collectNode_length_ge (reviveDate : Int) (acc : CommitDict) (node : GNode) :
    acc.length ≤ (collectNode reviveDate acc node).length := by
  cases hcd : node.committedDate with
  | none => simp [collectNode, hcd]
  | some t =>
    by_cases hle : reviveDate ≤ t
    · cases hoid : node.oid with
      | none => simp [collectNode, hcd, hle, hoid]
      | some sha =>
        simp only [collectNode, hcd, hoid, if_pos hle]
        exact dictInsert_length_ge acc sha _
    · simp [collectNode, hcd, hle]

theorem collectWindow_length_ge (reviveDate : Int) :
    ∀ (nodes : List GNode) (acc : CommitDict),
      acc.length ≤ (collectWindow reviveDate acc nodes).length
  | [], _ => Nat.le_refl _
  | n :: ns, acc =>
    Nat.le_trans (collectNode_length_ge reviveDate acc n)
      (collectWindow_length_ge reviveDate ns (collectNode reviveDate acc n))

theorem foldlWindows_length_ge (fetch : Nat → List GNode) (reviveDate : Int) :
    ∀ (ws : List Nat) (col : CommitDict),
      col.length ≤ (ws.foldl (stepWindow fetch reviveDate) col).length
  | [], _ => Nat.le_refl _
  | w :: ws, col =>
    Nat.le_trans (collectWindow_length_ge reviveDate (fetch w) col)
      (foldlWindows_length_ge fetch reviveDate ws (stepWindow fetch reviveDate col w))

theorem orderedLength (col : CommitDict) :
    (sortByTimeAsc (dictValues col)).length = col.length := by
  rw [sortByTimeAsc, List.length_insertionSort, dictValues, List.length_map]

theorem accumFrom_zero (fetch : Nat → List GNode) (d : Int) (col : CommitDict)
    (w : Nat) (ws : List Nat) :
    accumFrom fetch d col (w :: ws) 0 = stepWindow fetch d col w := rfl

theorem accumFrom_succ (fetch : Nat → List GNode) (d : Int) (col : CommitDict)
    (w : Nat) (ws : List Nat) (k : Nat) :
    accumFrom fetch d col (w :: ws) (k + 1) =
      accumFrom fetch d (stepWindow fetch d col w) ws k := by
  simp [accumFrom, List.take_succ_cons]

theorem stepWindow_empty {fetch : Nat → List GNode} {d : Int} {w : Nat}
    (h : (fetch w).isEmpty = true) (col : CommitDict) :
    stepWindow fetch d col w = col := by
  rw [stepWindow, collectWindow, List.isEmpty_iff.mp h]
  rfl

theorem pickPostReviveGo_none_iff (fetch : Nat → List GNode) (d : Int) :
    ∀ (ws : List Nat) (col : CommitDict), col.length < 10 →
      (pickPostReviveGo fetch d ws col = none ↔
        (ws.foldl (stepWindow fetch d) col).length < 10)
  | [], col, h => by simpa [pickPostReviveGo] using h
  | w :: ws, col, h => by
    simp only [pickPostReviveGo, List.foldl_cons]
    by_cases hf : (fetch w).isEmpty
    · rw [if_pos hf, stepWindow_empty hf col]
      exact pickPostReviveGo_none_iff fetch d ws col h
    · rw [if_neg hf]
      by_cases h10 : 10 ≤ (sortByTimeAsc (dictValues (collectWindow d col (fetch w)))).length
      · rw [if_pos h10]
        have hlen : 9 < (sortByTimeAsc (dictValues (collectWindow d col (fetch w)))).length := by
          omega
        rw [List.getElem?_eq_getElem hlen]
        constructor
        · intro hcon
          exact absurd hcon (by simp)
        · intro hcon
          exfalso
          have hge := foldlWindows_length_ge fetch d ws (stepWindow fetch d col w)
          rw [orderedLength] at h10
          have hsw : collectWindow d col (fetch w) = stepWindow fetch d col w := rfl
          rw [hsw] at h10
          omega
      · rw [if_neg h10]
        rw [orderedLength] at h10
        exact pickPostReviveGo_none_iff fetch d ws (collectWindow d col (fetch w)) (by omega)

theorem pickPostReviveGo_some_iff (fetch : Nat → List GNode) (d : Int) :
    ∀ (ws : List Nat) (col : CommitDict), col.length < 10 → ∀ c,
      (pickPostReviveGo fetch d ws col = some c ↔
        ∃ k, k < ws.length
          ∧ (∀ j, j < k → (accumFrom fetch d col ws j).length < 10)
          ∧ 10 ≤ (accumFrom fetch d col ws k).length
          ∧ (sortByTimeAsc (dictValues (accumFrom fetch d col ws k)))[9]? = some c)
  | [], col, h, c => by
    simp only [pickPostReviveGo]
    constructor
    · intro hcon
      exact absurd hcon (by simp)
    · rintro ⟨k, hk, _⟩
      exact absurd hk (Nat.not_lt_zero k)
  | w :: ws, col, h, c => by
    simp only [pickPostReviveGo]
    by_cases hf : (fetch w).isEmpty
    · rw [if_pos hf]
      rw [pickPostReviveGo_some_iff fetch d ws col h c]
      constructor
      · rintro ⟨k, hk, hbefore, h10, h9⟩
        refine ⟨k + 1, by simp only [List.length_cons]; omega, ?_, ?_, ?_⟩
        · intro j hj
          cases j with
          | zero =>
            rw [accumFrom_zero, stepWindow_empty hf]
            exact h
          | succ j2 =>
            rw [accumFrom_succ, stepWindow_empty hf]
            exact hbefore j2 (by omega)
        · rw [accumFrom_succ, stepWindow_empty hf]
          exact h10
        · rw [accumFrom_succ, stepWindow_empty hf]
          exact h9
      · rintro ⟨k, hk, hbefore, h10, h9⟩
        cases k with
        | zero =>
          rw [accumFrom_zero, stepWindow_empty hf] at h10
          omega
        | succ k2 =>
          rw [accumFrom_succ, stepWindow_empty hf] at h10 h9
          refine ⟨k2, by simp only [List.length_cons] at hk; omega, ?_, h10, h9⟩
          intro j hj
          have hbj := hbefore (j + 1) (by omega)
          rw [accumFrom_succ, stepWindow_empty hf] at hbj
          exact hbj
    · rw [if_neg hf]
      by_cases h10c : 10 ≤ (sortByTimeAsc (dictValues (collectWindow d col (fetch w)))).length
      · rw [if_pos h10c]
        constructor
        · intro h9
          refine ⟨0, by simp, fun j hj => absurd hj (Nat.not_lt_zero j), ?_, ?_⟩
          · rw [accumFrom_zero]
            rw [orderedLength] at h10c
            simpa [stepWindow] using h10c
          · rw [accumFrom_zero]
            simpa [stepWindow] using h9
        · rintro ⟨k, hk, hbefore, h10, h9⟩
          have hk0 : k = 0 := by
            by_contra hne
            have hb0 := hbefore 0 (by omega)
            rw [accumFrom_zero] at hb0
            simp only [stepWindow] at hb0
            rw [orderedLength] at h10c
            omega
          subst hk0
          rw [accumFrom_zero] at h9
          simpa [stepWindow] using h9
      · rw [if_neg h10c]
        rw [orderedLength] at h10c
        have hcol2 : (collectWindow d col (fetch w)).length < 10 := by omega
        rw [pickPostReviveGo_some_iff fetch d ws (collectWindow d col (fetch w)) hcol2 c]
        constructor
        · rintro ⟨k, hk, hbefore, h10, h9⟩
          refine ⟨k + 1, by simp only [List.length_cons]; omega, ?_, ?_, ?_⟩
          · intro j hj
            cases j with
            | zero =>
              rw [accumFrom_zero]
              simpa [stepWindow] using hcol2
            | succ j2 =>
              rw [accumFrom_succ]
              have hbj := hbefore j2 (by omega)
              simpa [stepWindow] using hbj
          · rw [accumFrom_succ]
            simpa [stepWindow] using h10
          · rw [accumFrom_succ]
            simpa [stepWindow] using h9
        · rintro ⟨k, hk, hbefore, h10, h9⟩
          cases k with
          | zero =>
            rw [accumFrom_zero] at h10
            simp only [stepWindow] at h10
            omega
          | succ k2 =>
            rw [accumFrom_succ] at h10 h9
            refine ⟨k2, by simp only [List.length_cons] at hk; omega,
              ?_, by simpa [stepWindow] using h10, by simpa [stepWindow] using h9⟩
            intro j hj
            have hbj := hbefore (j + 1) (by omega)
            rw [accumFrom_succ] at hbj
            simpa [stepWindow] using hbj

/-- **C1.** `pick_post_revive_commit` tries the windows 30, 90, 180, 365,
730 days after the revival date in that order, accumulating a
deduplicated-by-hash collection of the fetched commits whose
`committed_at` is at least the revival date; at the first window after
which the accumulated collection holds at least 10 distinct commits it
returns the element at index 9 of that collection sorted ascending by
timestamp (the 10th earliest), and it returns `None` exactly when even
after the 730-day window fewer than 10 distinct commits have been
accumulated. -/
theorem pick_post_revive_commit_spec (fetch : Nat → List GNode) (reviveDate : Int) :
    (pick_post_revive_commit fetch reviveDate = none ↔
      postCount fetch reviveDate 4 < 10)
    ∧ (∀ c, pick_post_revive_commit fetch reviveDate = some c ↔
        ∃ k, k < 5 ∧ (∀ j, j < k → postCount fetch reviveDate j < 10)
          ∧ 10 ≤ postCount fetch reviveDate k
          ∧ (sortByTimeAsc (dictValues (postAccum fetch reviveDate k)))[9]? = some c) := by
  refine ⟨?_, fun c => ?_⟩
  · exact pickPostReviveGo_none_iff fetch reviveDate postReviveWindows [] (by decide)
  · exact pickPostReviveGo_some_iff fetch reviveDate postReviveWindows [] (by decide) c

/-!
### `parse_dates` and `sanitize_branch_name`

`pipeline/pipeline-pilar3.py` lines 233-235 and 238-255.
-/

/-- The outcome of reading one spreadsheet date cell as
`str(row.get(column, "")).strip()` followed by
`datetime.strptime(text, "%Y-%m-%d")`: the text is blank, the text is
non-blank but does not parse, or it parses to the midnight timestamp of
the written day. -/
inductive DateField where
  | blank
  | invalid
  | valid (d : Int)
deriving DecidableEq

/-- `parse_dates` of `pipeline/pipeline-pilar3.py` (lines 238-255): a
blank or unparseable `Data de ressurreição` raises `PipelineError`
(modelled as `none`); a blank or unparseable `Data de morte` falls back
to `revive_date - timedelta(days=1)`; the result is the pair
`(death, revive)`. -/
def parse_dates (morte revive : DateField) : Option (Int × Int) :=
  match revive with
  | DateField.blank => none
  | DateField.invalid => none
  | DateField.valid r =>
    let death : Option Int :=
      match morte with
      | DateField.valid m => some m
      | _ => none
    some (death.getD (r - secondsPerDay), r)

/-- **C9 counterexample.** A row whose death cell parses to a date ten
days after its revival cell is accepted by `parse_dates` unchanged: the
returned death date is not strictly earlier than the returned revival
date, contradicting the claim (the code performs no ordering check on an
explicit death date). -/
theorem parse_dates_no_order_check :
    parse_dates (DateField.valid 864000) (DateField.valid 0) = some (864000, 0)
    ∧ ¬ (864000 : Int) < 0 :=
  ⟨rfl, by decide⟩

/-- **C9 (amended).** When `parse_dates` succeeds (the revival cell
parses) and the death cell is blank or unparseable, the death date is
synthesized as `revival - 1 day`, hence strictly earlier than the
revival date; when the death cell parses, its value is returned as-is
with no ordering check; a blank or unparseable revival cell fails. -/
theorem parse_dates_spec (r m : Int) (f : DateField) :
    parse_dates DateField.blank (DateField.valid r) = some (r - secondsPerDay, r)
    ∧ parse_dates DateField.invalid (DateField.valid r) = some (r - secondsPerDay, r)
    ∧ r - secondsPerDay < r
    ∧ parse_dates (DateField.valid m) (DateField.valid r) = some (m, r)
    ∧ parse_dates f DateField.blank = none
    ∧ parse_dates f DateField.invalid = none := by
  refine ⟨rfl, rfl, ?_, rfl, rfl, rfl⟩
  have : (0:Int) < secondsPerDay := by unfold secondsPerDay; decide
  omega

/-- `sanitize_branch_name` character replacement: keep alphanumerics,
`-` and `_`, replace anything else by `-`.  Python's `str.isalnum` is
modelled by `Char.isAlphanum`. -/
def sanitizeChar (c : Char) : Char :=
  if c.isAlphanum ∨ c = '-' ∨ c = '_' then c else '-'

/-- `sanitize_branch_name` of `pipeline/pipeline-pilar3.py` (lines
233-235), on the character sequence of the input:
`"".join(allowed)[:100] or "snapshot"`. -/
def sanitize_branch_name (value : List Char) : List Char :=
  let allowed := value.map sanitizeChar
  let truncated := allowed.take 100
  if truncated.isEmpty then "snapshot".data else truncated

/-- The allowed alphabet of a sanitized branch name. -/
def allowedChar (c : Char) : Bool :=
  c.isAlphanum || c == '-' || c == '_'

theorem sanitizeChar_allowed (c : Char) : allowedChar (sanitizeChar c) = true := by
  unfold sanitizeChar allowedChar
  by_cases h : c.isAlphanum ∨ c = '-' ∨ c = '_'
  · rw [if_pos h]
    rcases h with h | h | h
    · simp [h]
    · simp [h]
    · simp [h]
  · rw [if_neg h]
    rfl

/-- **C10.** `sanitize_branch_name` returns a non-empty sequence of at
most 100 characters, all alphanumeric, `-` or `_`; it equals the
character-wise sanitization of the input truncated to 100 characters,
with the fallback `"snapshot"` exactly when the input is empty. -/
theorem sanitize_branch_name_spec (value : List Char) :
    1 ≤ (sanitize_branch_name value).length
    ∧ (sanitize_branch_name value).length ≤ 100
    ∧ (sanitize_branch_name value).all allowedChar = true
    ∧ sanitize_branch_name value =
        (if value = [] then "snapshot".data else (value.map sanitizeChar).take 100) := by
  have hform : sanitize_branch_name value =
      (if value = [] then "snapshot".data else (value.map sanitizeChar).take 100) := by
    unfold sanitize_branch_name
    rcases value with _ | ⟨c, cs⟩
    · rfl
    · rw [if_neg (by simp)]
      rw [if_neg (by simp [List.take_succ_cons])]
  refine ⟨?_, ?_, ?_, hform⟩
  · rw [hform]
    rcases value with _ | ⟨c, cs⟩
    · decide
    · simp [List.take_succ_cons]
  · rw [hform]
    rcases value with _ | ⟨c, cs⟩
    · decide
    · simp only [if_neg (by simp : ¬(c :: cs = []))]
      exact le_trans (List.length_take_le 100 _) (le_refl 100)
  · rw [hform]
    rcases hv : value with _ | ⟨c, cs⟩
    · decide
    · rw [if_neg (by simp)]
      rw [List.all_eq_true]
      intro x hx
      have hx2 : x ∈ (c :: cs).map sanitizeChar := List.mem_of_mem_take hx
      obtain ⟨y, _, hy⟩ := List.mem_map.mp hx2
      rw [← hy]
      exact sanitizeChar_allowed y
